import Mathlib

/-!
Verification development for the image-to-pdf scanning/grouping/layout core.

The Python source (image_scanner.py, pdf_converter.py, settings.py) is shallowly
embedded below.  Regular-expression matching is abstracted as a function from a
file name to a three-variant match outcome (named capture present, match without
the named capture, no match), which is the only way the grouping code consumes a
compiled pattern.  Python dicts (insertion-ordered) are embedded as association
lists with the corresponding insert / set / remove operations.  Filesystem trees
are embedded as an inductive tree of named files and directories.
-/

set_option autoImplicit false

namespace ImageToPdf

/-! ### Ordering primitives

`cmpo` is the three-way comparison a Python `<` / `==` pair induces on any
linearly ordered type. -/

def cmpo {α : Type} [LinearOrder α] (a b : α) : Ordering :=
  if a < b then Ordering.lt else if a = b then Ordering.eq else Ordering.gt

theorem cmpo_eq_lt {α : Type} [LinearOrder α] {a b : α} :
    cmpo a b = Ordering.lt ↔ a < b := by
  unfold cmpo
  rcases lt_trichotomy a b with h | h | h
  · simp [h]
  · subst h; simp
  · simp [not_lt_of_gt h, ne_of_gt h]

theorem cmpo_eq_eq {α : Type} [LinearOrder α] {a b : α} :
    cmpo a b = Ordering.eq ↔ a = b := by
  unfold cmpo
  rcases lt_trichotomy a b with h | h | h
  · simp [h, ne_of_lt h]
  · subst h; simp
  · simp [not_lt_of_gt h, ne_of_gt h]

theorem cmpo_eq_gt {α : Type} [LinearOrder α] {a b : α} :
    cmpo a b = Ordering.gt ↔ b < a := by
  unfold cmpo
  rcases lt_trichotomy a b with h | h | h
  · simp [h, not_lt_of_gt h]
  · subst h; simp
  · simp [not_lt_of_gt h, ne_of_gt h, h]

theorem cmpo_self {α : Type} [LinearOrder α] (a : α) : cmpo a a = Ordering.eq :=
  cmpo_eq_eq.mpr rfl

/-! ### Natural sort key

Embedding of `natural_sort_key` (image_scanner.py lines 9-18):
`re.split(r"(\d+)", text)` splits a string into maximal digit runs and the
(possibly empty) text pieces around them; digit runs become integers, text
pieces are lowercased.  A key is therefore an alternating list
text, number, text, number, ..., text. -/

inductive KeyElem where
  | s (v : List Char)
  | n (v : Nat)
deriving DecidableEq

def digitsToNat (cs : List Char) : Nat :=
  cs.foldl (fun acc c => acc * 10 + (c.toNat - '0'.toNat)) 0

def lowerChars (cs : List Char) : List Char :=
  cs.map Char.toLower

/-- Maximal runs of digit / non-digit characters, each tagged with whether it
is a digit run. -/
def charRuns : List Char → List (Bool × List Char)
  | [] => []
  | c :: cs =>
    match charRuns cs with
    | (b, r) :: rest =>
      if c.isDigit = b then (b, c :: r) :: rest
      else (c.isDigit, [c]) :: (b, r) :: rest
    | [] => [(c.isDigit, [c])]

/-- Turn the runs into the Python key list: text elements (lowercased) and
integer elements, always starting and ending with a text element. -/
def runsToKey : List (Bool × List Char) → List KeyElem
  | [] => [KeyElem.s []]
  | (true, ds) :: rest => KeyElem.s [] :: KeyElem.n (digitsToNat ds) :: runsToKey rest
  | (false, ts) :: rest =>
    match runsToKey rest with
    | KeyElem.s t :: tail => KeyElem.s (lowerChars ts ++ t) :: tail
    | other => KeyElem.s (lowerChars ts) :: other

def natKey (text : String) : List KeyElem :=
  runsToKey (charRuns text.data)

/-- Three-way comparison of key elements; `none` is Python's `TypeError` when
an integer is compared against a string. -/
def cmpElem : KeyElem → KeyElem → Option Ordering
  | KeyElem.s a, KeyElem.s b => some (cmpo a b)
  | KeyElem.n a, KeyElem.n b => some (cmpo a b)
  | _, _ => none

/-- Python list comparison: lexicographic, the shorter list first when it is a
prefix of the other; comparing an integer element against a string element is
undefined. -/
def cmpKey : List KeyElem → List KeyElem → Option Ordering
  | [], [] => some Ordering.eq
  | [], _ :: _ => some Ordering.lt
  | _ :: _, [] => some Ordering.gt
  | a :: as, b :: bs =>
    match cmpElem a b with
    | some Ordering.eq => cmpKey as bs
    | r => r

def natCmp (a b : String) : Option Ordering :=
  cmpKey (natKey a) (natKey b)

/-- The (decidable) ordering used for all sorting in the embedding; Python's
stable `sorted` with `natural_sort_key` sorts ascending under this relation. -/
def NatLe (a b : String) : Prop :=
  natCmp a b ≠ some Ordering.gt

instance : DecidableRel NatLe := fun a b =>
  inferInstanceAs (Decidable (natCmp a b ≠ some Ordering.gt))

def NatLeOn {α : Type} (f : α → String) (a b : α) : Prop :=
  NatLe (f a) (f b)

instance {α : Type} (f : α → String) : DecidableRel (NatLeOn f) := fun a b =>
  inferInstanceAs (Decidable (NatLe (f a) (f b)))

def sortNatBy {α : Type} (f : α → String) (l : List α) : List α :=
  List.insertionSort (NatLeOn f) l

def sortNat (l : List String) : List String :=
  sortNatBy id l

/-! ### Pattern grouping (image_scanner.py lines 149-281)

A compiled regular expression is consumed by the grouping code only through
`pattern.match(filename)` followed by `match.group("name")` (falling back when
the pattern has no such named group).  It is therefore embedded as a function
from the file name to a three-variant outcome. -/

inductive MatchOutcome where
  | captured (name : String)
  | matchedNoCapture
  | noMatch
deriving DecidableEq

def Pattern : Type := String → MatchOutcome

/-- Split a character list on a separator character; like Python `split`, the
result always has one more piece than there are separators. -/
def splitCharsOn (sep : Char) : List Char → List Char → List (List Char)
  | [], cur => [cur.reverse]
  | c :: cs, cur =>
    if c = sep then cur.reverse :: splitCharsOn sep cs []
    else splitCharsOn sep cs (c :: cur)

/-- Split a path string on `/`, yielding its components. -/
def splitPath (p : String) : List String :=
  (splitCharsOn '/' p.data []).map (fun cs => String.mk cs)

/-- `Path(image_path).name`: the final path component. -/
def fileName (path : String) : String :=
  (splitPath path).getLastD ""

/-- Association-list lookup, mirroring `key in dict` / `dict[key]` reads. -/
def lookupGroup : List (String × List String) → String → Option (List String)
  | [], _ => none
  | (k, v) :: rest, key => if k = key then some v else lookupGroup rest key

/-- Python `if key not in groups: groups[key] = []` followed by
`groups[key].append(img)`: appends to an existing entry in place, otherwise
adds a new entry at the end (insertion order). -/
def insertImage : List (String × List String) → String → String → List (String × List String)
  | [], key, img => [(key, [img])]
  | (k, v) :: rest, key, img =>
    if k = key then (k, v ++ [img]) :: rest
    else (k, v) :: insertImage rest key img

/-- Python `groups[key] = value`: overwrites an existing entry in place,
otherwise adds a new entry at the end. -/
def setEntry : List (String × List String) → String → List String → List (String × List String)
  | [], key, v => [(key, v)]
  | (k, w) :: rest, key, v =>
    if k = key then (k, v) :: rest
    else (k, w) :: setEntry rest key v

/-- Python `groups.pop(key)`’s removal part. -/
def removeEntry : List (String × List String) → String → List (String × List String)
  | [], _ => []
  | (k, v) :: rest, key =>
    if k = key then rest else (k, v) :: removeEntry rest key

/-- Final per-group sorting (lines 216-217 and 277-279): every member list is
re-sorted with the natural key, key order unchanged. -/
def sortGroups (g : List (String × List String)) : List (String × List String) :=
  g.map (fun kv => (kv.1, sortNat kv.2))

/-- The inner pattern loop of `_group_by_multiple_patterns` (lines 243-262):
try the patterns in priority order on the file name; the first non-failing
match decides the group name (named capture, or the folder path when the
pattern has no named group); `none` when no pattern matches. -/
def tryPatterns (folderPath : String) (patterns : List Pattern) (filename : String) :
    Option String :=
  match patterns with
  | [] => none
  | p :: rest =>
    match p filename with
    | MatchOutcome.captured name => some name
    | MatchOutcome.matchedNoCapture => some folderPath
    | MatchOutcome.noMatch => tryPatterns folderPath rest filename

structure GroupState where
  groups : List (String × List String)
  hasMatched : Bool
  unmatched : List String
deriving DecidableEq

/-- One iteration of the per-image loop of `_group_by_multiple_patterns`. -/
def processImage (folderPath : String) (patterns : List Pattern)
    (st : GroupState) (imagePath : String) : GroupState :=
  match tryPatterns folderPath patterns (fileName imagePath) with
  | some name =>
    { groups := insertImage st.groups name imagePath
      hasMatched := true
      unmatched := st.unmatched }
  | none =>
    { groups := st.groups
      hasMatched := st.hasMatched
      unmatched := st.unmatched ++ [imagePath] }

/-- The whole per-image pass of `_group_by_multiple_patterns`. -/
def groupScan (folderPath : String) (patterns : List Pattern) (imagePaths : List String) :
    GroupState :=
  imagePaths.foldl (processImage folderPath patterns) ⟨[], false, []⟩

/-- `ImageScanner._group_by_multiple_patterns` (lines 221-281). -/
def groupByMultiplePatterns (folderPath : String) (imagePaths : List String)
    (patterns : List Pattern) : List (String × List String) :=
  let st := groupScan folderPath patterns imagePaths
  let groups :=
    if st.unmatched = [] then st.groups
    else if st.hasMatched then setEntry st.groups (folderPath ++ "_other") st.unmatched
    else setEntry st.groups folderPath st.unmatched
  sortGroups groups

structure SingleState where
  groups : List (String × List String)
  hasMatched : Bool
deriving DecidableEq

/-- One iteration of the per-image loop of `_group_by_single_pattern`
(lines 188-209). -/
def processImageSingle (folderPath : String) (p : Pattern)
    (st : SingleState) (imagePath : String) : SingleState :=
  match p (fileName imagePath) with
  | MatchOutcome.captured name => ⟨insertImage st.groups name imagePath, true⟩
  | MatchOutcome.matchedNoCapture => ⟨insertImage st.groups folderPath imagePath, true⟩
  | MatchOutcome.noMatch =>
    ⟨insertImage st.groups (folderPath ++ "_other") imagePath, st.hasMatched⟩

def singleScan (folderPath : String) (p : Pattern) (imagePaths : List String) : SingleState :=
  imagePaths.foldl (processImageSingle folderPath p) ⟨[], false⟩

/-- `ImageScanner._group_by_single_pattern` (lines 171-219): the unmatched
bucket is built under `folderPath + "_other"` directly; when nothing matched it
is popped and re-set under the plain folder path. -/
def groupBySinglePattern (folderPath : String) (imagePaths : List String)
    (p : Pattern) : List (String × List String) :=
  let st := singleScan folderPath p imagePaths
  let groups :=
    if st.hasMatched then st.groups
    else
      match lookupGroup st.groups (folderPath ++ "_other") with
      | some v => setEntry (removeEntry st.groups (folderPath ++ "_other")) folderPath v
      | none => st.groups
  sortGroups groups

/-- `ImageScanner.group_images_by_pattern` (lines 149-169): the multi-pattern
list takes precedence, then the deprecated single pattern, then the
no-pattern passthrough returning all images under the folder path. -/
def groupImagesByPattern (singlePattern : Option Pattern) (multiPatterns : List Pattern)
    (folderPath : String) (imagePaths : List String) : List (String × List String) :=
  match multiPatterns with
  | _ :: _ => groupByMultiplePatterns folderPath imagePaths multiPatterns
  | [] =>
    match singlePattern with
    | some p => groupBySinglePattern folderPath imagePaths p
    | none => [(folderPath, imagePaths)]

/-! ### Page layout (pdf_converter.py lines 64-90, fixed page size branch)

The floating-point arithmetic of the source is idealized over the rationals. -/

structure PageLayout where
  drawWidth : ℚ
  drawHeight : ℚ
  x : ℚ
  y : ℚ
deriving DecidableEq

/-- The fixed-page, fit-to-page placement (lines 68-84). -/
def layoutFixedFitToPage (imgWidth imgHeight pageWidth pageHeight : ℚ) : PageLayout :=
  let aspect := imgWidth / imgHeight
  let pageAspect := pageWidth / pageHeight
  if aspect > pageAspect then
    let dw := pageWidth
    let dh := pageWidth / aspect
    ⟨dw, dh, (pageWidth - dw) / 2, (pageHeight - dh) / 2⟩
  else
    let dh := pageHeight
    let dw := pageHeight * aspect
    ⟨dw, dh, (pageWidth - dw) / 2, (pageHeight - dh) / 2⟩

/-! ### Batch conversion (pdf_converter.py lines 111-198)

Paths are plain strings with `/` separators; `Path(...).parent` of a
single-component path is `"."`, as in pathlib.  The conversion of one group
(`convert_images_to_pdf`, including every filesystem effect) is abstracted as
an oracle returning `none` on success and the error message on failure. -/

def joinWith (sep : String) : List String → String
  | [] => ""
  | [x] => x
  | x :: xs => x ++ sep ++ joinWith sep (xs)

/-- `Path(p).parent`: drop the last component; a single-component relative
path has parent `"."`. -/
def parentPath (p : String) : String :=
  let parts := splitPath p
  if parts.length ≤ 1 then "." else joinWith "/" parts.dropLast

def joinPath (dir name : String) : String :=
  if dir = "." then name else dir ++ "/" ++ name

structure ProgressEvent where
  index : Nat
  total : Nat
  outputPath : Option String
  error : Option String
deriving DecidableEq

/-- PDF file name derivation (lines 142-149). -/
def pdfNameOf (includeRootFolderName : Bool) (folderName : String) : String :=
  let parts := splitPath folderName
  if includeRootFolderName then joinWith "-" parts ++ ".pdf"
  else parts.getLastD "" ++ ".pdf"

/-- Output location (lines 151-166): an explicit output directory wins;
otherwise the document goes next to the first member image's containing
folder, i.e. into that folder's parent. -/
def outputPathFor (outputDirectory : Option String) (includeRootFolderName : Bool)
    (folderName : String) (imagePaths : List String) : String :=
  let pdfName := pdfNameOf includeRootFolderName folderName
  match outputDirectory with
  | some d => joinPath d pdfName
  | none => joinPath (parentPath (parentPath (imagePaths.headD ""))) pdfName

structure BatchState where
  created : List String
  events : List ProgressEvent
deriving DecidableEq

/-- One iteration of the batch loop (lines 138-196): groups with an empty
member list are skipped outright; otherwise the group is converted, a success
appends the output path and fires the callback with it, a failure fires the
callback with the error, and either way the loop continues. -/
def batchStep (convert : List String → String → Option String)
    (outputDirectory : Option String) (includeRootFolderName : Bool) (total : Nat)
    (st : BatchState) (entry : Nat × String × List String) : BatchState :=
  match entry with
  | (index, folderName, imagePaths) =>
    if imagePaths = [] then st
    else
      let outputPath := outputPathFor outputDirectory includeRootFolderName folderName imagePaths
      match convert imagePaths outputPath with
      | none =>
        { created := st.created ++ [outputPath]
          events := st.events ++ [⟨index, total, some outputPath, none⟩] }
      | some err =>
        { created := st.created
          events := st.events ++ [⟨index, total, none, some err⟩] }

/-- Python `enumerate(xs, i)`. -/
def enumFrom {α : Type} (i : Nat) : List α → List (Nat × α)
  | [] => []
  | x :: xs => (i, x) :: enumFrom (i + 1) xs

/-- Python `enumerate(xs, 1)`. -/
def enum1 {α : Type} (l : List α) : List (Nat × α) :=
  enumFrom 1 l

/-- `PDFConverter.batch_convert` (lines 111-198), returning the created paths
and the stream of progress-callback invocations. -/
def batchConvert (convert : List String → String → Option String)
    (includeRootFolderName : Bool) (imageGroups : List (String × List String))
    (outputDirectory : Option String) :
    Option (List String × List ProgressEvent) :=
  if imageGroups = [] then none
  else
    let st := (enum1 imageGroups).foldl
      (batchStep convert outputDirectory includeRootFolderName imageGroups.length)
      ⟨[], []⟩
    some (st.created, st.events)

/-! ### Directory scanning (image_scanner.py lines 45-95)

A filesystem tree is embedded as named files and directories.  Paths use `/`
separators, as elsewhere. -/

inductive Entry where
  | file (name : String)
  | dir (name : String) (children : List Entry)

def entryName : Entry → String
  | Entry.file n => n
  | Entry.dir n _ => n

def lowerStr (s : String) : String := String.mk (lowerChars s.data)

/-- pathlib `suffix`: the name from its last dot on, provided that dot is
neither the first nor the last character of the name; otherwise empty. -/
def suffixOf (name : String) : String :=
  let cs := name.data
  match cs.reverse.findIdx? (fun c => c == '.') with
  | none => ""
  | some j =>
    let i := cs.length - 1 - j
    if 0 < i ∧ i < cs.length - 1 then String.mk (cs.drop i) else ""

/-- The direct image files of one directory level (lines 83-86): iterate the
children in natural-key order and keep files whose lowercased suffix is an
allowed extension, as full paths. -/
def directImages (exts : List String) (dirPath : String) (children : List Entry) :
    List String :=
  (sortNatBy entryName children).filterMap (fun e =>
    match e with
    | Entry.file n => if lowerStr (suffixOf n) ∈ exts then some (joinPath dirPath n) else none
    | Entry.dir _ _ => none)

mutual
/-- `ImageScanner._scan_recursive` (lines 73-95).  The source recurses into
each subdirectory while iterating the naturally sorted children, so the
subdirectory results precede the current level's own record.  Each
subdirectory's contribution depends only on that subdirectory, so recursing
over the children as given and then ordering the (child, result) pairs by the
same stable natural sort on the child name produces the identical list. -/
def scanEntry (exts : List String) (dirPath relPath : String) : Entry → List (String × List String)
  | Entry.file _ => []
  | Entry.dir _ children =>
    let subs := sortNatBy (fun pr => entryName pr.1) (scanChildren exts dirPath relPath children)
    let subResults := (subs.map Prod.snd).flatten
    let images := directImages exts dirPath children
    if images = [] then subResults
    else subResults ++ [(relPath, sortNat images)]

def scanChildren (exts : List String) (dirPath relPath : String) :
    List Entry → List (Entry × List (String × List String))
  | [] => []
  | e :: rest =>
    (e, scanEntry exts (joinPath dirPath (entryName e)) (joinPath relPath (entryName e)) e)
      :: scanChildren exts dirPath relPath rest
end

/-- `ImageScanner.scan_directory` (lines 45-71): fails when the root is not a
directory; keys are paths relative to the root's parent, so they start with
the root's own name.  `rootParent` is the path of the directory containing the
scan root. -/
def scanDirectory (exts : List String) (rootParent : String) (root : Entry) :
    Option (List (String × List String)) :=
  match root with
  | Entry.file _ => none
  | Entry.dir name _ =>
    some ((scanEntry exts (joinPath rootParent name) name root).filter
      (fun kv => !kv.2.isEmpty))

mutual
/-- Specification-side enumeration of every directory node of the tree with
its full path, its folder key (path relative to the scan root's parent) and
its children, in the order `scanEntry` records directories. -/
def collectDirs (dirPath relPath : String) : Entry → List (String × String × List Entry)
  | Entry.file _ => []
  | Entry.dir _ children =>
    let subs := sortNatBy (fun pr => entryName pr.1) (collectChildren dirPath relPath children)
    ((subs.map Prod.snd).flatten) ++ [(dirPath, relPath, children)]

def collectChildren (dirPath relPath : String) :
    List Entry → List (Entry × List (String × String × List Entry))
  | [] => []
  | e :: rest =>
    (e, collectDirs (joinPath dirPath (entryName e)) (joinPath relPath (entryName e)) e)
      :: collectChildren dirPath relPath rest
end

/-- The progress event one enumerated group produces when attempted on its
own: success yields the output path, failure the error, with the group's
1-based position and the batch total. -/
def batchEventFor (convert : List String → String → Option String)
    (outputDirectory : Option String) (includeRootFolderName : Bool) (total : Nat)
    (entry : Nat × String × List String) : ProgressEvent :=
  match entry with
  | (index, folderName, imagePaths) =>
    let outputPath := outputPathFor outputDirectory includeRootFolderName folderName imagePaths
    match convert imagePaths outputPath with
    | none => ⟨index, total, some outputPath, none⟩
    | some err => ⟨index, total, none, some err⟩

/-- Closed form of the batch loop's progress stream: one event per group with
a non-empty member list, each computed independently of all other groups. -/
def batchEvents (convert : List String → String → Option String)
    (outputDirectory : Option String) (includeRootFolderName : Bool)
    (imageGroups : List (String × List String)) : List ProgressEvent :=
  ((enum1 imageGroups).filter (fun e => !e.2.2.isEmpty)).map
    (batchEventFor convert outputDirectory includeRootFolderName imageGroups.length)

/-! ## Claim C8: fixed-page fit-to-page layout -/

/-- C8: in fixed-page fit-to-page mode with positive image dimensions `w`, `h`
and page dimensions `W`, `H`: when `w/h > W/H` the image is width-bound
(`drawWidth = W`, `drawHeight = W / (w/h)`), otherwise height-bound
(`drawHeight = H`, `drawWidth = H * (w/h)`); equal aspect ratios yield exactly
the width-bound assignment; and the placement is centered on both axes. -/
theorem layoutFixedFitToPage_correct (w h W H : ℚ)
    (_hw : 0 < w) (hh : 0 < h) (hW : 0 < W) (hH : 0 < H) :
    (w / h > W / H →
      (layoutFixedFitToPage w h W H).drawWidth = W ∧
      (layoutFixedFitToPage w h W H).drawHeight = W / (w / h)) ∧
    (¬ w / h > W / H →
      (layoutFixedFitToPage w h W H).drawHeight = H ∧
      (layoutFixedFitToPage w h W H).drawWidth = H * (w / h)) ∧
    (w / h = W / H →
      (layoutFixedFitToPage w h W H).drawWidth = W ∧
      (layoutFixedFitToPage w h W H).drawHeight = W / (w / h)) ∧
    (layoutFixedFitToPage w h W H).x = (W - (layoutFixedFitToPage w h W H).drawWidth) / 2 ∧
    (layoutFixedFitToPage w h W H).y = (H - (layoutFixedFitToPage w h W H).drawHeight) / 2 := by
  have hh0 : h ≠ 0 := ne_of_gt hh
  have hH0 : H ≠ 0 := ne_of_gt hH
  have hW0 : W ≠ 0 := ne_of_gt hW
  by_cases hgt : w / h > W / H
  · refine ⟨fun _ => ?_, fun hc => absurd hgt hc, fun _ => ?_, ?_, ?_⟩ <;>
      simp [layoutFixedFitToPage, if_pos hgt]
  · refine ⟨fun hc => absurd hc hgt, fun _ => ?_, fun heq => ?_, ?_, ?_⟩
    · constructor <;> simp [layoutFixedFitToPage, if_neg hgt]
    · have e1 : (layoutFixedFitToPage w h W H).drawWidth = H * (w / h) := by
        simp [layoutFixedFitToPage, if_neg hgt]
      have e2 : (layoutFixedFitToPage w h W H).drawHeight = H := by
        simp [layoutFixedFitToPage, if_neg hgt]
      rw [e1, e2, heq]
      constructor
      · field_simp
      · rw [div_div_eq_mul_div, mul_comm, mul_div_assoc, div_self hW0, mul_one]
    · simp [layoutFixedFitToPage, if_neg hgt]
    · simp [layoutFixedFitToPage, if_neg hgt]

/-- Witness for C8 at the spec's example: a 2000×1000 image on a 600×800 page
is width-bound with drawWidth 600, drawHeight 300. -/
theorem layoutFixedFitToPage_correct_witness :
    (layoutFixedFitToPage 2000 1000 600 800).drawWidth = 600 ∧
    (layoutFixedFitToPage 2000 1000 600 800).drawHeight = 300 := by
  have h := layoutFixedFitToPage_correct 2000 1000 600 800
    (by norm_num) (by norm_num) (by norm_num) (by norm_num)
  have hgt : (2000 : ℚ) / 1000 > 600 / 800 := by norm_num
  obtain ⟨hwb, -, -, -, -⟩ := h
  obtain ⟨h1, h2⟩ := hwb hgt
  refine ⟨h1, ?_⟩
  rw [h2]; norm_num

/-! ## Claim C1: partition property of the multi-pattern grouper

The partition property fails: when a pattern's named capture yields the group
name `folderKey + "_other"` and unmatched images also exist, line 272 of
image_scanner.py assigns (not appends) the unmatched bucket to that key,
discarding the previously matched images. -/

/-- A concrete pattern: matches `f_otherA.png` with named capture `f_other`
(e.g. the regex `^(?P<name>f_other)A`), matches nothing else. -/
def capturesFolderOther : Pattern := fun s =>
  if s = "f_otherA.png" then MatchOutcome.captured "f_other" else MatchOutcome.noMatch

/-- C1 (violated by the code): on folder `f` with images
`[f_otherA.png, zzz.png]` and a single pattern whose capture on the first
image is `f_other`, the result is exactly one group `f_other = [zzz.png]` —
the matched image `f_otherA.png` appears in no returned group, so the returned
mapping is not a partition of the input list. -/
theorem groupByMultiplePatterns_drops_image :
    groupByMultiplePatterns "f" ["f_otherA.png", "zzz.png"] [capturesFolderOther]
      = [("f_other", ["zzz.png"])] ∧
    ∀ g ∈ groupByMultiplePatterns "f" ["f_otherA.png", "zzz.png"] [capturesFolderOther],
      "f_otherA.png" ∉ g.2 := by
  decide

/-! ## Claim C6: no-pattern passthrough -/

/-- C6 counterexample: with no patterns configured, the input list is returned
as given, not re-sorted into natural order — for the (naturally unsorted)
input `[b.png, a.png]` the claimed result, one group holding the images in
natural order, differs from the actual result. -/
theorem groupImagesByPattern_no_pattern_not_sorted :
    groupImagesByPattern none [] "folderX" ["b.png", "a.png"]
      ≠ [("folderX", sortNat ["b.png", "a.png"])] := by
  decide

/-- C6 as amended: grouping with no patterns configured returns exactly one
group whose name is the folder key and whose member list is the input list in
its original order (no re-sorting). -/
theorem groupImagesByPattern_no_pattern (folderPath : String) (imagePaths : List String) :
    groupImagesByPattern none [] folderPath imagePaths = [(folderPath, imagePaths)] := rfl

/-! ## Claims C2 and C4: batch conversion -/

theorem batchStep_foldl (convert : List String → String → Option String)
    (od : Option String) (ir : Bool) (total : Nat)
    (l : List (Nat × String × List String)) :
    ∀ st : BatchState,
      l.foldl (batchStep convert od ir total) st =
        ⟨st.created ++
          ((l.filter (fun e => !e.2.2.isEmpty)).map
            (batchEventFor convert od ir total)).filterMap (fun e => e.outputPath),
         st.events ++
          (l.filter (fun e => !e.2.2.isEmpty)).map (batchEventFor convert od ir total)⟩ := by
  induction l with
  | nil => intro st; simp
  | cons e rest ih =>
    intro st
    obtain ⟨i, n, ps⟩ := e
    rw [List.foldl_cons, ih]
    by_cases hps : ps = []
    · subst hps
      simp [batchStep]
    · have hne : (!(ps.isEmpty)) = true := by
        cases ps
        · exact absurd rfl hps
        · rfl
      cases hconv : convert ps (outputPathFor od ir n ps) with
      | none =>
        simp [batchStep, hps, hconv, batchEventFor, hne, List.filter_cons]
      | some err =>
        simp [batchStep, hps, hconv, batchEventFor, hne, List.filter_cons]

theorem length_filter_enumFrom {α : Type} (Q : α → Bool) :
    ∀ (l : List α) (i : Nat),
      ((enumFrom i l).filter (fun e => Q e.2)).length = (l.filter Q).length := by
  intro l
  induction l with
  | nil => intro i; rfl
  | cons x xs ih =>
    intro i
    cases hx : Q x <;> simp [enumFrom, List.filter_cons, hx, ih]

theorem mem_enumFrom {α : Type} {p : Nat × α} :
    ∀ {l : List α} {i : Nat}, p ∈ enumFrom i l → p.2 ∈ l := by
  intro l
  induction l with
  | nil => intro i h; cases h
  | cons x xs ih =>
    intro i h
    cases h with
    | head => exact List.mem_cons_self _ _
    | tail _ h => exact List.mem_cons_of_mem _ (ih h)

/-- C4 counterexample: a non-empty group mapping containing one group with an
empty member list produces zero progress events — the callback is not invoked
for that group, refuting "exactly once per group in the mapping". -/
theorem batchConvert_empty_group_no_callback :
    batchConvert (fun _ _ => none) false [("g", [])] none = some ([], []) ∧
    [("g", ([] : List String))] ≠ [] := by
  constructor
  · rfl
  · decide

/-- C4 as amended: for every non-empty group mapping, the batch loop produces
exactly one progress event per group with a non-empty member list (groups with
an empty member list are skipped without a callback), each event is computed
from its own group alone — so no group's failure affects any other group —
and the returned created list consists of exactly the successful groups'
output paths, in completion order. -/
theorem batchConvert_progress (convert : List String → String → Option String)
    (ir : Bool) (gs : List (String × List String)) (od : Option String)
    (h : gs ≠ []) :
    batchConvert convert ir gs od =
      some ((batchEvents convert od ir gs).filterMap (fun e => e.outputPath),
            batchEvents convert od ir gs) ∧
    (batchEvents convert od ir gs).length = (gs.filter (fun g => !g.2.isEmpty)).length := by
  constructor
  · unfold batchConvert
    rw [if_neg h, batchStep_foldl]
    simp [batchEvents, enum1]
  · unfold batchEvents enum1
    rw [List.length_map]
    exact length_filter_enumFrom (fun g : String × List String => !g.2.isEmpty) gs 1

def convW : List String → String → Option String := fun ps _ =>
  if ps = ["a/b/y.png"] then some "boom" else none

def gsW : List (String × List String) :=
  [("a", ["a/b/x.png"]), ("bad", ["a/b/y.png"]), ("empty", [])]

/-- Witness for C4 at a concrete three-group batch whose second group fails
and whose third group is empty. -/
theorem batchConvert_progress_witness :
    batchConvert convW false gsW none =
      some ((batchEvents convW none false gsW).filterMap (fun e => e.outputPath),
            batchEvents convW none false gsW) ∧
    (batchEvents convW none false gsW).length = (gsW.filter (fun g => !g.2.isEmpty)).length :=
  batchConvert_progress convW false gsW none (by decide)

/-- C2 counterexample: for the group `Title1` (not an `_other` bucket) whose
first member image sits in folder `root/f`, the claim places the document in
that folder itself (`root/f/Title1.pdf`), but the code writes it into the
folder's parent: the produced path is `root/Title1.pdf`. -/
theorem batchConvert_output_not_in_folder :
    batchConvert (fun _ _ => none) false [("Title1", ["root/f/img1.png"])] none
      = some (["root/Title1.pdf"], [⟨1, 1, some "root/Title1.pdf", none⟩]) ∧
    "root/Title1.pdf" ≠ joinPath "root/f" "Title1.pdf" := by
  constructor
  · rfl
  · decide

/-- C2 as amended: with no explicit output directory, every successfully
created document path is the parent of the first member image's containing
folder joined with the derived PDF name — for every group, `_other` bucket or
not. -/
theorem batchConvert_output_location (convert : List String → String → Option String)
    (ir : Bool) (gs : List (String × List String))
    (created : List String) (events : List ProgressEvent)
    (h : gs ≠ []) (hres : batchConvert convert ir gs none = some (created, events)) :
    ∀ p ∈ created, ∃ g ∈ gs, g.2 ≠ [] ∧
      p = joinPath (parentPath (parentPath (g.2.headD ""))) (pdfNameOf ir g.1) := by
  intro p hp
  unfold batchConvert at hres
  rw [if_neg h, batchStep_foldl] at hres
  simp only [Option.some.injEq, Prod.mk.injEq] at hres
  obtain ⟨hcreated, -⟩ := hres
  rw [← hcreated] at hp
  simp only [List.nil_append] at hp
  rw [List.mem_filterMap] at hp
  obtain ⟨ev, hev, hevp⟩ := hp
  rw [List.mem_map] at hev
  obtain ⟨entry, hentry, hevdef⟩ := hev
  rw [List.mem_filter] at hentry
  obtain ⟨henum, hne⟩ := hentry
  obtain ⟨i, n, ps⟩ := entry
  have hmem : (n, ps) ∈ gs := mem_enumFrom henum
  refine ⟨(n, ps), hmem, ?_, ?_⟩
  · intro hnil
    rw [hnil] at hne
    exact absurd hne (by decide)
  · dsimp only [batchEventFor] at hevdef
    cases hconv : convert ps (outputPathFor none ir n ps) with
    | none =>
      rw [hconv] at hevdef
      rw [← hevdef] at hevp
      simp only [Option.some.injEq] at hevp
      rw [← hevp]
      rfl
    | some err =>
      rw [hconv] at hevdef
      rw [← hevdef] at hevp
      cases hevp

/-- Witness for C2 at a concrete one-group batch: the created path
`root/Title1.pdf` is the parent of image folder `root/f` joined with
`Title1.pdf`. -/
theorem batchConvert_output_location_witness :
    ∃ g ∈ [("Title1", ["root/f/img1.png"])], g.2 ≠ [] ∧
      "root/Title1.pdf" = joinPath (parentPath (parentPath (g.2.headD "")))
        (pdfNameOf false g.1) :=
  batchConvert_output_location (fun _ _ => none) false
    [("Title1", ["root/f/img1.png"])] ["root/Title1.pdf"]
    [⟨1, 1, some "root/Title1.pdf", none⟩] (by decide) rfl
    "root/Title1.pdf" (List.mem_singleton.mpr rfl)

/-! ## Association-list and grouping-pass lemmas -/

theorem lookupGroup_insertImage_self (g : List (String × List String)) (k img : String) :
    lookupGroup (insertImage g k img) k = some ((lookupGroup g k).getD [] ++ [img]) := by
  induction g with
  | nil => simp [insertImage, lookupGroup]
  | cons e rest ih =>
    obtain ⟨k', v⟩ := e
    by_cases hk : k' = k
    · subst hk; simp [insertImage, lookupGroup]
    · simp [insertImage, lookupGroup, hk, ih]

theorem lookupGroup_insertImage_ne (g : List (String × List String)) (k k' img : String)
    (h : k' ≠ k) :
    lookupGroup (insertImage g k img) k' = lookupGroup g k' := by
  induction g with
  | nil => simp [insertImage, lookupGroup, Ne.symm h]
  | cons e rest ih =>
    obtain ⟨k'', v⟩ := e
    by_cases hk : k'' = k
    · subst hk
      simp [insertImage, lookupGroup, Ne.symm h]
    · by_cases hk2 : k'' = k'
      · subst hk2; simp [insertImage, lookupGroup, hk]
      · simp [insertImage, lookupGroup, hk, hk2, ih]

theorem lookupGroup_setEntry_self (g : List (String × List String)) (k : String)
    (v : List String) :
    lookupGroup (setEntry g k v) k = some v := by
  induction g with
  | nil => simp [setEntry, lookupGroup]
  | cons e rest ih =>
    obtain ⟨k', w⟩ := e
    by_cases hk : k' = k
    · subst hk; simp [setEntry, lookupGroup]
    · simp [setEntry, lookupGroup, hk, ih]

theorem lookupGroup_setEntry_ne (g : List (String × List String)) (k k' : String)
    (v : List String) (h : k' ≠ k) :
    lookupGroup (setEntry g k v) k' = lookupGroup g k' := by
  induction g with
  | nil => simp [setEntry, lookupGroup, Ne.symm h]
  | cons e rest ih =>
    obtain ⟨k'', w⟩ := e
    by_cases hk : k'' = k
    · subst hk
      simp [setEntry, lookupGroup, Ne.symm h]
    · by_cases hk2 : k'' = k'
      · subst hk2; simp [setEntry, lookupGroup, hk]
      · simp [setEntry, lookupGroup, hk, hk2, ih]

theorem lookupGroup_sortGroups (g : List (String × List String)) (k : String) :
    lookupGroup (sortGroups g) k = (lookupGroup g k).map sortNat := by
  induction g with
  | nil => simp [sortGroups, lookupGroup]
  | cons e rest ih =>
    obtain ⟨k', v⟩ := e
    by_cases hk : k' = k
    · subst hk; simp [sortGroups, lookupGroup]
    · simpa [sortGroups, lookupGroup, hk] using ih

/-- The per-image decision of the multi-pattern pass: the group name assigned
by the first matching pattern, `none` when no pattern matches. -/
def decision (folderPath : String) (patterns : List Pattern) (imagePath : String) :
    Option String :=
  tryPatterns folderPath patterns (fileName imagePath)

theorem processImage_matched {fp : String} {ps : List Pattern} {i name : String}
    (st : GroupState) (hd : tryPatterns fp ps (fileName i) = some name) :
    processImage fp ps st i =
      { groups := insertImage st.groups name i, hasMatched := true,
        unmatched := st.unmatched } := by
  simp [processImage, hd]

theorem processImage_unmatched {fp : String} {ps : List Pattern} {i : String}
    (st : GroupState) (hd : tryPatterns fp ps (fileName i) = none) :
    processImage fp ps st i =
      { groups := st.groups, hasMatched := st.hasMatched,
        unmatched := st.unmatched ++ [i] } := by
  simp [processImage, hd]

theorem groupScan_foldl_unmatched (fp : String) (ps : List Pattern) (imgs : List String) :
    ∀ st : GroupState,
      (imgs.foldl (processImage fp ps) st).unmatched
        = st.unmatched ++ imgs.filter (fun i => (decision fp ps i).isNone) := by
  induction imgs with
  | nil => intro st; simp
  | cons i rest ih =>
    intro st
    rw [List.foldl_cons]
    cases hd : tryPatterns fp ps (fileName i) with
    | some name =>
      rw [processImage_matched st hd, ih]
      have hdec : (decision fp ps i).isNone = false := by simp [decision, hd]
      simp [List.filter_cons, hdec]
    | none =>
      rw [processImage_unmatched st hd, ih]
      have hdec : (decision fp ps i).isNone = true := by simp [decision, hd]
      simp [List.filter_cons, hdec]

theorem groupScan_foldl_hasMatched (fp : String) (ps : List Pattern) (imgs : List String) :
    ∀ st : GroupState,
      (imgs.foldl (processImage fp ps) st).hasMatched
        = (st.hasMatched || imgs.any (fun i => (decision fp ps i).isSome)) := by
  induction imgs with
  | nil => intro st; simp
  | cons i rest ih =>
    intro st
    rw [List.foldl_cons]
    cases hd : tryPatterns fp ps (fileName i) with
    | some name =>
      rw [processImage_matched st hd, ih]
      have hdec : (decision fp ps i).isSome = true := by simp [decision, hd]
      simp [hdec]
    | none =>
      rw [processImage_unmatched st hd, ih]
      have hdec : (decision fp ps i).isSome = false := by simp [decision, hd]
      simp [hdec]

theorem groupScan_foldl_lookup (fp : String) (ps : List Pattern) (imgs : List String) :
    ∀ (st : GroupState) (k : String),
      lookupGroup (imgs.foldl (processImage fp ps) st).groups k =
        (match lookupGroup st.groups k,
              imgs.filter (fun i => decide (decision fp ps i = some k)) with
         | some v, l => some (v ++ l)
         | none, [] => none
         | none, l => some l) := by
  induction imgs with
  | nil =>
    intro st k
    cases h : lookupGroup st.groups k <;> simp [h]
  | cons i rest ih =>
    intro st k
    rw [List.foldl_cons]
    cases hd : tryPatterns fp ps (fileName i) with
    | some name =>
      rw [processImage_matched st hd, ih]
      by_cases hk : name = k
      · subst hk
        have hdec : decide (decision fp ps i = some name) = true := by
          simp [decision, hd]
        rw [lookupGroup_insertImage_self]
        simp only [List.filter_cons, hdec, if_pos]
        cases h : lookupGroup st.groups name <;> simp [h]
      · have hdec : decide (decision fp ps i = some k) = false := by
          simp [decision, hd, hk]
        rw [lookupGroup_insertImage_ne _ _ _ _ (Ne.symm hk)]
        simp only [List.filter_cons, hdec]
        rfl
    | none =>
      rw [processImage_unmatched st hd, ih]
      have hdec : decide (decision fp ps i = some k) = false := by
        simp [decision, hd]
      simp only [List.filter_cons, hdec]
      rfl

/-- The key under which the single-pattern pass files an image (lines
188-209): named capture, else folder path on a capture-less match, else the
`_other` bucket name. -/
def singleKey (folderPath : String) (p : Pattern) (imagePath : String) : String :=
  match p (fileName imagePath) with
  | MatchOutcome.captured name => name
  | MatchOutcome.matchedNoCapture => folderPath
  | MatchOutcome.noMatch => folderPath ++ "_other"

theorem processImageSingle_groups (fp : String) (p : Pattern) (st : SingleState) (i : String) :
    (processImageSingle fp p st i).groups = insertImage st.groups (singleKey fp p i) i := by
  cases h : p (fileName i) <;> simp [processImageSingle, singleKey, h]

theorem processImageSingle_hasMatched (fp : String) (p : Pattern) (st : SingleState)
    (i : String) :
    (processImageSingle fp p st i).hasMatched
      = (st.hasMatched || decide (p (fileName i) ≠ MatchOutcome.noMatch)) := by
  cases h : p (fileName i) <;> simp [processImageSingle, h]

theorem singleScan_foldl_hasMatched (fp : String) (p : Pattern) (imgs : List String) :
    ∀ st : SingleState,
      (imgs.foldl (processImageSingle fp p) st).hasMatched
        = (st.hasMatched || imgs.any (fun i => decide (p (fileName i) ≠ MatchOutcome.noMatch))) := by
  induction imgs with
  | nil => intro st; simp
  | cons i rest ih =>
    intro st
    rw [List.foldl_cons, ih, processImageSingle_hasMatched]
    simp [Bool.or_assoc]

theorem singleScan_foldl_lookup (fp : String) (p : Pattern) (imgs : List String) :
    ∀ (st : SingleState) (k : String),
      lookupGroup (imgs.foldl (processImageSingle fp p) st).groups k =
        (match lookupGroup st.groups k,
              imgs.filter (fun i => decide (singleKey fp p i = k)) with
         | some v, l => some (v ++ l)
         | none, [] => none
         | none, l => some l) := by
  induction imgs with
  | nil =>
    intro st k
    cases h : lookupGroup st.groups k <;> simp [h]
  | cons i rest ih =>
    intro st k
    rw [List.foldl_cons, ih]
    rw [processImageSingle_groups]
    by_cases hk : singleKey fp p i = k
    · subst hk
      rw [lookupGroup_insertImage_self]
      have hdec : decide (singleKey fp p i = singleKey fp p i) = true := by simp
      simp only [List.filter_cons, hdec, if_pos]
      cases h : lookupGroup st.groups (singleKey fp p i) <;> simp [h]
    · rw [lookupGroup_insertImage_ne _ _ _ _ (Ne.symm hk)]
      have hdec : decide (singleKey fp p i = k) = false := by simp [hk]
      simp only [List.filter_cons, hdec]
      rfl

theorem foldl_processImageSingle_all_unmatched (fp : String) (p : Pattern) :
    ∀ (imgs : List String) (g : List (String × List String)) (b : Bool),
      (∀ i ∈ imgs, p (fileName i) = MatchOutcome.noMatch) →
      imgs.foldl (processImageSingle fp p) ⟨g, b⟩ =
        ⟨imgs.foldl (fun gg i => insertImage gg (fp ++ "_other") i) g, b⟩ := by
  intro imgs
  induction imgs with
  | nil => intro g b _; rfl
  | cons i rest ih =>
    intro g b h
    have hi := h i (List.mem_cons_self i rest)
    rw [List.foldl_cons, List.foldl_cons]
    have hstep : processImageSingle fp p ⟨g, b⟩ i = ⟨insertImage g (fp ++ "_other") i, b⟩ := by
      simp [processImageSingle, hi]
    rw [hstep]
    exact ih _ b (fun j hj => h j (List.mem_cons_of_mem _ hj))

theorem foldl_insertImage_const (c : String) :
    ∀ (imgs l : List String),
      imgs.foldl (fun gg i => insertImage gg c i) [(c, l)] = [(c, l ++ imgs)] := by
  intro imgs
  induction imgs with
  | nil => intro l; simp
  | cons i rest ih =>
    intro l
    rw [List.foldl_cons]
    have hstep : insertImage [(c, l)] c i = [(c, l ++ [i])] := by simp [insertImage]
    rw [hstep, ih]
    simp

theorem foldl_insertImage_const_nil (c : String) (imgs : List String) (h : imgs ≠ []) :
    imgs.foldl (fun gg i => insertImage gg c i) [] = [(c, imgs)] := by
  cases imgs with
  | nil => exact absurd rfl h
  | cons i rest =>
    rw [List.foldl_cons]
    have hstep : insertImage [] c i = [(c, [i])] := rfl
    rw [hstep, foldl_insertImage_const]
    simp

theorem foldl_processImage_all_unmatched (fp : String) (ps : List Pattern) :
    ∀ (imgs : List String) (st : GroupState),
      (∀ i ∈ imgs, decision fp ps i = none) →
      imgs.foldl (processImage fp ps) st =
        ⟨st.groups, st.hasMatched, st.unmatched ++ imgs⟩ := by
  intro imgs
  induction imgs with
  | nil => intro st _; simp
  | cons i rest ih =>
    intro st h
    have hi : tryPatterns fp ps (fileName i) = none := h i (List.mem_cons_self i rest)
    rw [List.foldl_cons, processImage_unmatched st hi,
      ih _ (fun j hj => h j (List.mem_cons_of_mem _ hj))]
    simp

/-! ## Claim C3: finalization of the unmatched bucket -/

theorem groupByMultiplePatterns_eq (fp : String) (imgs : List String) (ps : List Pattern) :
    groupByMultiplePatterns fp imgs ps =
      sortGroups
        (if (groupScan fp ps imgs).unmatched = [] then (groupScan fp ps imgs).groups
         else if (groupScan fp ps imgs).hasMatched then
           setEntry (groupScan fp ps imgs).groups (fp ++ "_other") (groupScan fp ps imgs).unmatched
         else setEntry (groupScan fp ps imgs).groups fp (groupScan fp ps imgs).unmatched) := rfl

theorem groupScan_groups_empty_of_not_matched (fp : String) (ps : List Pattern)
    (imgs : List String) (hm : (groupScan fp ps imgs).hasMatched = false) :
    (groupScan fp ps imgs).groups = [] ∧
    (groupScan fp ps imgs).unmatched = imgs := by
  have h2 : (groupScan fp ps imgs).hasMatched
      = (false || imgs.any (fun i => (decision fp ps i).isSome)) :=
    groupScan_foldl_hasMatched fp ps imgs ⟨[], false, []⟩
  rw [hm, Bool.false_or] at h2
  have hall : ∀ i ∈ imgs, decision fp ps i = none := by
    intro i hi
    have hfalse := List.any_eq_false.mp h2.symm i hi
    cases hd : decision fp ps i with
    | none => rfl
    | some v => rw [hd] at hfalse; simp at hfalse
  have hfold := foldl_processImage_all_unmatched fp ps imgs ⟨[], false, []⟩ hall
  constructor
  · show (imgs.foldl (processImage fp ps) ⟨[], false, []⟩).groups = []
    rw [hfold]
  · show (imgs.foldl (processImage fp ps) ⟨[], false, []⟩).unmatched = imgs
    rw [hfold]
    simp

/-- C3: after the per-image pass of the multi-pattern grouper (state
`groupScan`), the finalization behaves exactly as claimed: a non-empty
unmatched bucket is returned under `folderKey + "_other"` when some image
matched a pattern, under the plain `folderKey` (as the only group) when no
image matched anything, and an empty unmatched bucket adds no group at all. -/
theorem groupByMultiplePatterns_fallback (fp : String) (ps : List Pattern) (imgs : List String) :
    ((groupScan fp ps imgs).unmatched ≠ [] → (groupScan fp ps imgs).hasMatched = true →
      lookupGroup (groupByMultiplePatterns fp imgs ps) (fp ++ "_other")
        = some (sortNat (groupScan fp ps imgs).unmatched)) ∧
    ((groupScan fp ps imgs).unmatched ≠ [] → (groupScan fp ps imgs).hasMatched = false →
      groupByMultiplePatterns fp imgs ps = [(fp, sortNat (groupScan fp ps imgs).unmatched)]) ∧
    ((groupScan fp ps imgs).unmatched = [] →
      groupByMultiplePatterns fp imgs ps = sortGroups (groupScan fp ps imgs).groups) := by
  refine ⟨?_, ?_, ?_⟩
  · intro hne hm
    rw [groupByMultiplePatterns_eq, if_neg hne, if_pos hm]
    rw [lookupGroup_sortGroups, lookupGroup_setEntry_self]
    rfl
  · intro hne hm
    obtain ⟨hgroups, -⟩ := groupScan_groups_empty_of_not_matched fp ps imgs hm
    rw [groupByMultiplePatterns_eq, if_neg hne, if_neg (by simp [hm]), hgroups]
    simp [setEntry, sortGroups]
  · intro he
    rw [groupByMultiplePatterns_eq, if_pos he]

/-- A concrete pattern capturing `A` on `a.png` and matching nothing else. -/
def pA : Pattern := fun s =>
  if s = "a.png" then MatchOutcome.captured "A" else MatchOutcome.noMatch

/-- Witness for C3: the three finalization cases at concrete inputs — a mixed
folder, an all-unmatched folder and an all-matched folder. -/
theorem groupByMultiplePatterns_fallback_witness :
    lookupGroup (groupByMultiplePatterns "f" ["a.png", "u.png"] [pA]) ("f" ++ "_other")
        = some (sortNat (groupScan "f" [pA] ["a.png", "u.png"]).unmatched) ∧
    groupByMultiplePatterns "f" ["u.png"] [pA]
        = [("f", sortNat (groupScan "f" [pA] ["u.png"]).unmatched)] ∧
    groupByMultiplePatterns "f" ["a.png"] [pA]
        = sortGroups (groupScan "f" [pA] ["a.png"]).groups := by
  refine ⟨(groupByMultiplePatterns_fallback "f" [pA] ["a.png", "u.png"]).1 ?_ ?_,
          (groupByMultiplePatterns_fallback "f" [pA] ["u.png"]).2.1 ?_ ?_,
          (groupByMultiplePatterns_fallback "f" [pA] ["a.png"]).2.2 ?_⟩ <;> decide

/-! ## Claim C5: first-match priority and per-image independence -/

/-- The group name one match outcome determines: the named capture, the folder
path when the capture is absent, nothing on a non-match. -/
def outcomeName (folderPath : String) : MatchOutcome → Option String
  | MatchOutcome.captured n => some n
  | MatchOutcome.matchedNoCapture => some folderPath
  | MatchOutcome.noMatch => none

/-- C5: (1) if the pattern at index `i` matches the file name and every
earlier pattern does not, the per-image decision equals the outcome of the
pattern at `i` alone — its named capture or the folder-key fallback —
whatever patterns `qs` follow (they are never consulted); and (2) every group
of the per-image pass is the plain filter of the input list by that image's
own decision, so each image's placement is independent of all other images. -/
theorem tryPatterns_priority (fp : String) :
    (∀ (ps qs : List Pattern) (fname : String) (i : Nat) (hi : i < ps.length),
      (∀ k (hk : k < i), ps.get ⟨k, lt_trans hk hi⟩ fname = MatchOutcome.noMatch) →
      ps.get ⟨i, hi⟩ fname ≠ MatchOutcome.noMatch →
      tryPatterns fp (ps ++ qs) fname = outcomeName fp (ps.get ⟨i, hi⟩ fname)) ∧
    (∀ (ps : List Pattern) (imgs : List String) (k : String),
      lookupGroup (groupScan fp ps imgs).groups k =
        (if imgs.filter (fun i => decide (decision fp ps i = some k)) = [] then none
         else some (imgs.filter (fun i => decide (decision fp ps i = some k))))) := by
  constructor
  · intro ps qs fname
    induction ps with
    | nil =>
      intro i hi
      exact absurd hi (by simp)
    | cons p ps' ih =>
      intro i hi hearlier hmatch
      cases i with
      | zero =>
        cases hp : p fname with
        | captured n => simp [tryPatterns, hp, outcomeName, List.get]
        | matchedNoCapture => simp [tryPatterns, hp, outcomeName, List.get]
        | noMatch => exact absurd hp hmatch
      | succ j =>
        have h0 : p fname = MatchOutcome.noMatch := hearlier 0 (Nat.succ_pos j)
        have hj : j < ps'.length := Nat.lt_of_succ_lt_succ hi
        have hstep : tryPatterns fp ((p :: ps') ++ qs) fname
            = tryPatterns fp (ps' ++ qs) fname := by
          simp [tryPatterns, h0]
        rw [hstep]
        exact ih j hj (fun k hk => hearlier (k + 1) (Nat.succ_lt_succ hk)) hmatch
  · intro ps imgs k
    have h := groupScan_foldl_lookup fp ps imgs ⟨[], false, []⟩ k
    have h' : lookupGroup (groupScan fp ps imgs).groups k =
        (match (none : Option (List String)),
              imgs.filter (fun i => decide (decision fp ps i = some k)) with
         | some v, l => some (v ++ l)
         | none, [] => none
         | none, l => some l) := h
    rw [h']
    cases hf : imgs.filter (fun i => decide (decision fp ps i = some k)) with
    | nil => simp
    | cons x xs => simp

def pNever : Pattern := fun _ => MatchOutcome.noMatch

def pX : Pattern := fun _ => MatchOutcome.captured "X"

def pY : Pattern := fun _ => MatchOutcome.captured "Y"

/-- Witness for C5: with patterns `[pNever, pX]` and any suffix `[pY]`, the
image matching `pX` at index 1 is assigned `X`; and at a concrete input the
group of an image equals the filtered input list. -/
theorem tryPatterns_priority_witness :
    tryPatterns "f" ([pNever, pX] ++ [pY]) "img"
      = outcomeName "f" ([pNever, pX].get ⟨1, by decide⟩ "img") ∧
    lookupGroup (groupScan "f" [pA] ["a.png", "u.png"]).groups "A"
      = (if ["a.png", "u.png"].filter
            (fun i => decide (decision "f" [pA] i = some "A")) = [] then none
         else some (["a.png", "u.png"].filter
            (fun i => decide (decision "f" [pA] i = some "A")))) := by
  constructor
  · refine (tryPatterns_priority "f").1 [pNever, pX] [pY] "img" 1 (by decide) ?_ ?_
    · intro k hk
      have hk0 : k = 0 := by omega
      subst hk0
      rfl
    · decide
  · exact (tryPatterns_priority "f").2 [pA] ["a.png", "u.png"] "A"

/-! ## Claim C7: single-pattern path versus one-element multi-pattern path -/

theorem self_ne_append_other (s : String) : s ≠ s ++ "_other" := by
  intro h
  have hlen := congrArg String.length h
  rw [String.length_append] at hlen
  have h6 : ("_other" : String).length = 6 := rfl
  rw [h6] at hlen
  omega

theorem groupBySinglePattern_eq (fp : String) (imgs : List String) (p : Pattern) :
    groupBySinglePattern fp imgs p =
      sortGroups
        (if (singleScan fp p imgs).hasMatched then (singleScan fp p imgs).groups
         else
           match lookupGroup (singleScan fp p imgs).groups (fp ++ "_other") with
           | some v =>
             setEntry (removeEntry (singleScan fp p imgs).groups (fp ++ "_other")) fp v
           | none => (singleScan fp p imgs).groups) := rfl

/-- C7 counterexample pattern: captures `f_other` on `f_otherA.png` (e.g. the
regex `^(?P<name>f_other)A`), matches nothing else. -/
def collidingPattern : Pattern := fun s =>
  if s = "f_otherA.png" then MatchOutcome.captured "f_other" else MatchOutcome.noMatch

/-- C7 counterexample: on folder `f` with images `[f_otherA.png, zzz.png]`,
the single-pattern path merges the unmatched image into the captured group
`f_other` (both images), while the multi-pattern path overwrites that group
with the unmatched bucket (one image): the two mappings differ. -/
theorem groupBySinglePattern_differs_from_multi :
    groupBySinglePattern "f" ["f_otherA.png", "zzz.png"] collidingPattern
      ≠ groupByMultiplePatterns "f" ["f_otherA.png", "zzz.png"] [collidingPattern] := by
  decide

/-- C7 as amended: whenever no image's first-match decision names the group
`folderKey + "_other"` (no capture collides with the fallback bucket), the
deprecated single-pattern path and the multi-pattern path on the one-element
list agree as mappings: every group name looks up to the same member list
(the key insertion order inside the mapping may differ). -/
theorem groupBySinglePattern_eq_multi (fp : String) (p : Pattern) (imgs : List String)
    (H : ∀ i ∈ imgs, decision fp [p] i ≠ some (fp ++ "_other")) :
    ∀ k, lookupGroup (groupBySinglePattern fp imgs p) k
        = lookupGroup (groupByMultiplePatterns fp imgs [p]) k := by
  intro k
  have hmS : (singleScan fp p imgs).hasMatched
      = imgs.any (fun i => decide (p (fileName i) ≠ MatchOutcome.noMatch)) := by
    have h := singleScan_foldl_hasMatched fp p imgs ⟨[], false⟩
    simpa using h
  have hmM : (groupScan fp [p] imgs).hasMatched
      = imgs.any (fun i => (decision fp [p] i).isSome) := by
    have h := groupScan_foldl_hasMatched fp [p] imgs ⟨[], false, []⟩
    simpa using h
  have hsame : ∀ i, (decision fp [p] i).isSome
      = decide (p (fileName i) ≠ MatchOutcome.noMatch) := by
    intro i
    cases h : p (fileName i) <;> simp [decision, tryPatterns, h]
  have hmEq : (singleScan fp p imgs).hasMatched = (groupScan fp [p] imgs).hasMatched := by
    rw [hmS, hmM]
    simp [hsame]
  have hUdef : (groupScan fp [p] imgs).unmatched
      = imgs.filter (fun i => (decision fp [p] i).isNone) := by
    have h := groupScan_foldl_unmatched fp [p] imgs ⟨[], false, []⟩
    simpa using h
  have hlookS : ∀ k', lookupGroup (singleScan fp p imgs).groups k' =
      (match (none : Option (List String)),
            imgs.filter (fun i => decide (singleKey fp p i = k')) with
       | some v, l => some (v ++ l)
       | none, [] => none
       | none, l => some l) :=
    fun k' => singleScan_foldl_lookup fp p imgs ⟨[], false⟩ k'
  have hlookM : ∀ k', lookupGroup (groupScan fp [p] imgs).groups k' =
      (match (none : Option (List String)),
            imgs.filter (fun i => decide (decision fp [p] i = some k')) with
       | some v, l => some (v ++ l)
       | none, [] => none
       | none, l => some l) :=
    fun k' => groupScan_foldl_lookup fp [p] imgs ⟨[], false, []⟩ k'
  have filterEqNe : ∀ k', k' ≠ fp ++ "_other" →
      imgs.filter (fun i => decide (singleKey fp p i = k'))
        = imgs.filter (fun i => decide (decision fp [p] i = some k')) := by
    intro k' hk'
    apply List.filter_congr
    intro i _
    cases hp : p (fileName i) with
    | captured n => simp [singleKey, decision, tryPatterns, hp]
    | matchedNoCapture => simp [singleKey, decision, tryPatterns, hp]
    | noMatch =>
      simp [singleKey, decision, tryPatterns, hp, Ne.symm hk']
  have filterEqOther :
      imgs.filter (fun i => decide (singleKey fp p i = fp ++ "_other"))
        = imgs.filter (fun i => (decision fp [p] i).isNone) := by
    apply List.filter_congr
    intro i hi
    cases hp : p (fileName i) with
    | captured n =>
      have hd : decision fp [p] i = some n := by simp [decision, tryPatterns, hp]
      have hnfp : n ≠ fp ++ "_other" := by
        intro hcontr
        exact H i hi (by rw [hd, hcontr])
      simp [singleKey, hp, hd, hnfp]
    | matchedNoCapture =>
      have hd : decision fp [p] i = some fp := by simp [decision, tryPatterns, hp]
      simp [singleKey, hp, hd, self_ne_append_other fp]
    | noMatch =>
      have hd : decision fp [p] i = none := by simp [decision, tryPatterns, hp]
      simp [singleKey, hp, hd]
  have filterOtherNil :
      imgs.filter (fun i => decide (decision fp [p] i = some (fp ++ "_other"))) = [] := by
    rw [List.filter_eq_nil_iff]
    intro i hi
    simp [H i hi]
  cases hm : (singleScan fp p imgs).hasMatched with
  | true =>
    have hmM' : (groupScan fp [p] imgs).hasMatched = true := by rw [← hmEq]; exact hm
    rw [groupBySinglePattern_eq, if_pos hm, groupByMultiplePatterns_eq]
    by_cases hU : (groupScan fp [p] imgs).unmatched = []
    · rw [if_pos hU, lookupGroup_sortGroups, lookupGroup_sortGroups]
      congr 1
      rw [hlookS k, hlookM k]
      by_cases hk : k = fp ++ "_other"
      · subst hk
        rw [filterEqOther, ← hUdef, hU, filterOtherNil]
      · rw [filterEqNe k hk]
    · rw [if_neg hU, if_pos hmM', lookupGroup_sortGroups, lookupGroup_sortGroups]
      congr 1
      by_cases hk : k = fp ++ "_other"
      · subst hk
        rw [lookupGroup_setEntry_self, hlookS _, filterEqOther, ← hUdef]
        cases hU' : (groupScan fp [p] imgs).unmatched with
        | nil => exact absurd hU' hU
        | cons u us => simp
      · rw [lookupGroup_setEntry_ne _ _ _ _ hk, hlookS k, hlookM k, filterEqNe k hk]
  | false =>
    have hmM' : (groupScan fp [p] imgs).hasMatched = false := by rw [← hmEq]; exact hm
    have hallP : ∀ i ∈ imgs, p (fileName i) = MatchOutcome.noMatch := by
      intro i hi
      have hany : imgs.any (fun i => decide (p (fileName i) ≠ MatchOutcome.noMatch))
          = false := by rw [← hmS]; exact hm
      have h2 := List.any_eq_false.mp hany i hi
      simpa using h2
    obtain ⟨hG, hU⟩ := groupScan_groups_empty_of_not_matched fp [p] imgs hmM'
    cases himgs : imgs with
    | nil =>
      subst himgs
      rfl
    | cons i0 rest =>
      have hne : imgs ≠ [] := by rw [himgs]; simp
      rw [← himgs]
      have hsingle : (singleScan fp p imgs).groups = [(fp ++ "_other", imgs)] := by
        show (imgs.foldl (processImageSingle fp p) ⟨[], false⟩).groups = _
        rw [foldl_processImageSingle_all_unmatched fp p imgs [] false hallP]
        exact foldl_insertImage_const_nil _ _ hne
      have hUne : (groupScan fp [p] imgs).unmatched ≠ [] := by rw [hU]; exact hne
      rw [groupBySinglePattern_eq, if_neg (by simp [hm]), hsingle,
        groupByMultiplePatterns_eq, if_neg hUne, if_neg (by simp [hmM']), hG, hU]
      have hl : lookupGroup [(fp ++ "_other", imgs)] (fp ++ "_other") = some imgs := by
        simp [lookupGroup]
      rw [hl]
      have hrem : removeEntry [(fp ++ "_other", imgs)] (fp ++ "_other") = [] := by
        simp [removeEntry]
      rw [hrem]

def pU : Pattern := fun s =>
  if s = "a.png" then MatchOutcome.captured "A" else MatchOutcome.noMatch

/-- Witness for C7: on a concrete folder where one image captures `A` and one
matches nothing, both paths agree on the looked-up member lists. -/
theorem groupBySinglePattern_eq_multi_witness :
    lookupGroup (groupBySinglePattern "f" ["a.png", "u.png"] pU) "A"
      = lookupGroup (groupByMultiplePatterns "f" ["a.png", "u.png"] [pU]) "A" :=
  groupBySinglePattern_eq_multi "f" pU ["a.png", "u.png"] (by decide) "A"

/-! ## Claim C10: the natural-order comparison -/

theorem cmpElem_self (x : KeyElem) : cmpElem x x = some Ordering.eq := by
  cases x <;> simp [cmpElem, cmpo_self]

theorem cmpElem_eq_iff {a b : KeyElem} : cmpElem a b = some Ordering.eq ↔ a = b := by
  cases a <;> cases b <;> simp [cmpElem, cmpo_eq_eq]

theorem cmpElem_lt_gt {a b : KeyElem} :
    cmpElem a b = some Ordering.lt ↔ cmpElem b a = some Ordering.gt := by
  cases a <;> cases b <;> simp [cmpElem, cmpo_eq_lt, cmpo_eq_gt]

theorem cmpElem_trans_lt {a b c : KeyElem}
    (h1 : cmpElem a b = some Ordering.lt) (h2 : cmpElem b c = some Ordering.lt) :
    cmpElem a c = some Ordering.lt := by
  cases a <;> cases b <;> cases c <;>
    simp [cmpElem, cmpo_eq_lt] at h1 h2 ⊢ <;>
    exact lt_trans h1 h2

theorem cmpKey_self : ∀ k : List KeyElem, cmpKey k k = some Ordering.eq := by
  intro k
  induction k with
  | nil => rfl
  | cons x xs ih => simp [cmpKey, cmpElem_self, ih]

theorem cmpKey_eq_iff : ∀ a b : List KeyElem, cmpKey a b = some Ordering.eq ↔ a = b := by
  intro a
  induction a with
  | nil =>
    intro b
    cases b <;> simp [cmpKey]
  | cons x xs ih =>
    intro b
    cases b with
    | nil => simp [cmpKey]
    | cons y ys =>
      cases hxy : cmpElem x y with
      | none =>
        constructor
        · intro h
          rw [cmpKey, hxy] at h
          cases h
        · intro h
          injection h with h1 h2
          subst h1
          rw [cmpElem_self] at hxy
          cases hxy
      | some o =>
        cases o with
        | eq =>
          have hxyeq : x = y := cmpElem_eq_iff.mp hxy
          subst hxyeq
          simp [cmpKey, hxy, ih]
        | lt =>
          constructor
          · intro h
            rw [cmpKey] at h
            simp [hxy] at h
          · intro h
            injection h with h1 h2
            subst h1
            rw [cmpElem_self] at hxy
            cases hxy
        | gt =>
          constructor
          · intro h
            rw [cmpKey] at h
            simp [hxy] at h
          · intro h
            injection h with h1 h2
            subst h1
            rw [cmpElem_self] at hxy
            cases hxy

theorem cmpKey_lt_gt : ∀ a b : List KeyElem,
    cmpKey a b = some Ordering.lt ↔ cmpKey b a = some Ordering.gt := by
  intro a
  induction a with
  | nil =>
    intro b
    cases b <;> simp [cmpKey]
  | cons x xs ih =>
    intro b
    cases b with
    | nil => simp [cmpKey]
    | cons y ys =>
      cases hxy : cmpElem x y with
      | none =>
        have hyx : cmpElem y x = none := by
          cases x <;> cases y <;> simp_all [cmpElem]
        simp [cmpKey, hxy, hyx]
      | some o =>
        cases o with
        | eq =>
          have hxyeq : x = y := cmpElem_eq_iff.mp hxy
          subst hxyeq
          simp [cmpKey, hxy, ih]
        | lt =>
          have hyx : cmpElem y x = some Ordering.gt := cmpElem_lt_gt.mp hxy
          simp [cmpKey, hxy, hyx]
        | gt =>
          have hyx : cmpElem y x = some Ordering.lt := cmpElem_lt_gt.mpr hxy
          simp [cmpKey, hxy, hyx]

theorem cmpKey_trans_lt : ∀ a b c : List KeyElem,
    cmpKey a b = some Ordering.lt → cmpKey b c = some Ordering.lt →
    cmpKey a c = some Ordering.lt := by
  intro a
  induction a with
  | nil =>
    intro b c h1 h2
    cases b with
    | nil => cases h1
    | cons y ys =>
      cases c with
      | nil => cases h2
      | cons z zs => rfl
  | cons x xs ih =>
    intro b c h1 h2
    cases b with
    | nil => cases h1
    | cons y ys =>
      cases c with
      | nil =>
        rw [cmpKey] at h2
        cases hyz : cmpElem y (KeyElem.s []) <;> simp_all [cmpKey]
      | cons z zs =>
        rw [cmpKey] at h1 h2 ⊢
        cases hxy : cmpElem x y with
        | none => rw [hxy] at h1; cases h1
        | some o1 =>
          cases o1 with
          | gt => rw [hxy] at h1; cases h1
          | eq =>
            have hxyeq : x = y := cmpElem_eq_iff.mp hxy
            subst hxyeq
            rw [hxy] at h1
            cases hxz : cmpElem x z with
            | none => rw [hxz] at h2; cases h2
            | some o2 =>
              cases o2 with
              | gt => rw [hxz] at h2; cases h2
              | lt => rfl
              | eq => rw [hxz] at h2; exact ih ys zs h1 h2
          | lt =>
            rw [hxy] at h1
            cases hyz : cmpElem y z with
            | none => rw [hyz] at h2; cases h2
            | some o2 =>
              cases o2 with
              | gt => rw [hyz] at h2; cases h2
              | eq =>
                have hyzeq : y = z := cmpElem_eq_iff.mp hyz
                subst hyzeq
                rw [hxy]
              | lt =>
                rw [cmpElem_trans_lt hxy hyz]

/-- The shape of every produced key: a text element, then alternating
integer/text elements, ending with a text element. -/
def isKeyShape : List KeyElem → Bool
  | [KeyElem.s _] => true
  | KeyElem.s _ :: KeyElem.n _ :: rest => isKeyShape rest
  | _ => false

theorem isKeyShape_cons_s (x y : List Char) (tail : List KeyElem) :
    isKeyShape (KeyElem.s x :: tail) = isKeyShape (KeyElem.s y :: tail) := by
  cases tail with
  | nil => rfl
  | cons t ts => cases t <;> rfl

theorem runsToKey_shape : ∀ runs : List (Bool × List Char),
    isKeyShape (runsToKey runs) = true := by
  intro runs
  induction runs with
  | nil => rfl
  | cons r rest ih =>
    obtain ⟨b, cs⟩ := r
    cases b with
    | true => exact ih
    | false =>
      show isKeyShape
        (match runsToKey rest with
         | KeyElem.s t :: tail => KeyElem.s (lowerChars cs ++ t) :: tail
         | other => KeyElem.s (lowerChars cs) :: other) = true
      cases hr : runsToKey rest with
      | nil => rw [hr] at ih; cases ih
      | cons e tail =>
        cases e with
        | s t =>
          rw [hr] at ih
          rw [isKeyShape_cons_s (lowerChars cs ++ t) t tail]
          exact ih
        | n m =>
          rw [hr] at ih
          cases ih

theorem isKeyShape_cases {a : List KeyElem} (h : isKeyShape a = true) :
    (∃ x, a = [KeyElem.s x]) ∨
    (∃ x m rest, a = KeyElem.s x :: KeyElem.n m :: rest ∧ isKeyShape rest = true) := by
  cases a with
  | nil => cases h
  | cons e tail =>
    cases e with
    | n m => cases h
    | s x =>
      cases tail with
      | nil => exact Or.inl ⟨x, rfl⟩
      | cons e2 tail2 =>
        cases e2 with
        | s y => cases h
        | n m => exact Or.inr ⟨x, m, tail2, rfl, h⟩

theorem cmpKey_isSome_of_shape : ∀ (n : Nat) (a b : List KeyElem), a.length ≤ n →
    isKeyShape a = true → isKeyShape b = true → (cmpKey a b).isSome = true := by
  intro n
  induction n with
  | zero =>
    intro a b hlen ha _
    rcases isKeyShape_cases ha with ⟨x, rfl⟩ | ⟨x, m, arest, rfl, -⟩ <;> simp at hlen
  | succ n ih =>
    intro a b hlen ha hb
    rcases isKeyShape_cases ha with ⟨x, rfl⟩ | ⟨x, m, arest, rfl, harest⟩ <;>
      rcases isKeyShape_cases hb with ⟨y, rfl⟩ | ⟨y, m2, brest, rfl, hbrest⟩
    · cases hc : cmpo x y <;> simp [cmpKey, cmpElem, hc]
    · cases hc : cmpo x y <;> simp [cmpKey, cmpElem, hc]
    · cases hc : cmpo x y <;> simp [cmpKey, cmpElem, hc]
    · cases hc : cmpo x y with
      | lt => simp [cmpKey, cmpElem, hc]
      | gt => simp [cmpKey, cmpElem, hc]
      | eq =>
        cases hc2 : cmpo m m2 with
        | lt => simp [cmpKey, cmpElem, hc, hc2]
        | gt => simp [cmpKey, cmpElem, hc, hc2]
        | eq =>
          have hlen2 : arest.length ≤ n := by
            simp only [List.length_cons] at hlen
            omega
          have htail := ih arest brest hlen2 harest hbrest
          simpa [cmpKey, cmpElem, hc, hc2] using htail

/-- C10: the natural-order comparison is defined (never type-mismatched) on
every pair of strings, and is a total order up to key equality: reflexive,
equal exactly on equal keys, asymmetric between `lt` and `gt`, transitive —
and it orders `"a2" < "a10" < "a20"` while identifying keys that differ only
by letter case. -/
theorem natCmp_total_order :
    (∀ s t : String, (natCmp s t).isSome = true) ∧
    (∀ s : String, natCmp s s = some Ordering.eq) ∧
    (∀ s t : String, natCmp s t = some Ordering.eq ↔ natKey s = natKey t) ∧
    (∀ s t : String, natCmp s t = some Ordering.lt ↔ natCmp t s = some Ordering.gt) ∧
    (∀ s t u : String, natCmp s t = some Ordering.lt → natCmp t u = some Ordering.lt →
      natCmp s u = some Ordering.lt) ∧
    (natCmp "a2" "a10" = some Ordering.lt ∧ natCmp "a10" "a20" = some Ordering.lt ∧
      natCmp "A2" "a2" = some Ordering.eq) := by
  refine ⟨?_, ?_, ?_, ?_, ?_, ?_⟩
  · intro s t
    exact cmpKey_isSome_of_shape (natKey s).length (natKey s) (natKey t) le_rfl
      (runsToKey_shape _) (runsToKey_shape _)
  · intro s
    exact cmpKey_self (natKey s)
  · intro s t
    exact cmpKey_eq_iff (natKey s) (natKey t)
  · intro s t
    exact cmpKey_lt_gt (natKey s) (natKey t)
  · intro s t u h1 h2
    exact cmpKey_trans_lt (natKey s) (natKey t) (natKey u) h1 h2
  · refine ⟨by decide, by decide, by decide⟩

/-- Witness for C10: transitivity applied at `"a2" < "a10" < "a20"` gives
`"a2" < "a20"`. -/
theorem natCmp_total_order_witness : natCmp "a2" "a20" = some Ordering.lt :=
  natCmp_total_order.2.2.2.2.1 "a2" "a10" "a20" (by decide) (by decide)

/-! ## Claim C9: directory scan characterization -/

theorem orderedInsert_map {α β : Type} (g : α → β) (r : α → α → Prop) (r' : β → β → Prop)
    [DecidableRel r] [DecidableRel r'] (hrel : ∀ a b, r' (g a) (g b) ↔ r a b) :
    ∀ (a : α) (l : List α),
      List.orderedInsert r' (g a) (l.map g) = (List.orderedInsert r a l).map g := by
  intro a l
  induction l with
  | nil => rfl
  | cons x xs ih =>
    simp only [List.map_cons, List.orderedInsert]
    by_cases h : r a x
    · rw [if_pos ((hrel a x).mpr h), if_pos h, List.map_cons, List.map_cons]
    · rw [if_neg (fun hc => h ((hrel a x).mp hc)), if_neg h, List.map_cons, ih]

theorem insertionSort_map {α β : Type} (g : α → β) (r : α → α → Prop) (r' : β → β → Prop)
    [DecidableRel r] [DecidableRel r'] (hrel : ∀ a b, r' (g a) (g b) ↔ r a b) :
    ∀ l : List α,
      List.insertionSort r' (l.map g) = (List.insertionSort r l).map g := by
  intro l
  induction l with
  | nil => rfl
  | cons x xs ih =>
    simp only [List.map_cons, List.insertionSort, ih]
    exact orderedInsert_map g r r' hrel x (List.insertionSort r xs)

theorem sortNatBy_map_entry {β γ : Type} (f : β → γ) (l : List (Entry × β)) :
    sortNatBy (fun pr => entryName pr.1) (l.map (fun pr => (pr.1, f pr.2)))
      = (sortNatBy (fun pr => entryName pr.1) l).map (fun pr => (pr.1, f pr.2)) := by
  unfold sortNatBy
  exact insertionSort_map (fun pr : Entry × β => (pr.1, f pr.2))
    (NatLeOn (fun pr : Entry × β => entryName pr.1))
    (NatLeOn (fun pr : Entry × γ => entryName pr.1))
    (fun _ _ => Iff.rfl) l

theorem filterMap_flatten {α β : Type} (f : α → Option β) :
    ∀ L : List (List α), L.flatten.filterMap f = (L.map (List.filterMap f)).flatten := by
  intro L
  induction L with
  | nil => rfl
  | cons x xs ih => simp [List.filterMap_append, ih]

/-- Specification-side scan result: one entry per directory node that directly
contains at least one allowed-extension file, keyed by the node's path
relative to the scan root's parent, valued by its naturally sorted direct
image paths. -/
def scanSpec (exts : List String) (dp rp : String) (e : Entry) :
    List (String × List String) :=
  (collectDirs dp rp e).filterMap (fun t =>
    if directImages exts t.1 t.2.2 = [] then none
    else some (t.2.1, sortNat (directImages exts t.1 t.2.2)))

mutual
theorem scanEntry_eq_spec (exts : List String) (dp rp : String) :
    (e : Entry) → scanEntry exts dp rp e = scanSpec exts dp rp e
  | Entry.file _ => rfl
  | Entry.dir name children => by
    have hch := scanChildren_eq_spec exts dp rp children
    have escan : scanEntry exts dp rp (Entry.dir name children) =
        (if directImages exts dp children = [] then
          ((sortNatBy (fun pr => entryName pr.1) (scanChildren exts dp rp children)).map
            Prod.snd).flatten
         else
          ((sortNatBy (fun pr => entryName pr.1) (scanChildren exts dp rp children)).map
            Prod.snd).flatten ++ [(rp, sortNat (directImages exts dp children))]) := rfl
    have ecollect : collectDirs dp rp (Entry.dir name children) =
        ((sortNatBy (fun pr => entryName pr.1) (collectChildren dp rp children)).map
          Prod.snd).flatten ++ [(dp, rp, children)] := rfl
    have hhead : ((sortNatBy (fun pr => entryName pr.1) (scanChildren exts dp rp children)).map
          Prod.snd).flatten
        = (((sortNatBy (fun pr => entryName pr.1) (collectChildren dp rp children)).map
            Prod.snd).flatten).filterMap (fun t =>
              if directImages exts t.1 t.2.2 = [] then none
              else some (t.2.1, sortNat (directImages exts t.1 t.2.2))) := by
      rw [hch, sortNatBy_map_entry, filterMap_flatten, List.map_map, List.map_map]
      rfl
    rw [escan]
    unfold scanSpec
    rw [ecollect, List.filterMap_append, ← hhead]
    by_cases himg : directImages exts dp children = []
    · rw [if_pos himg]
      simp [himg]
    · rw [if_neg himg]
      simp [himg]

theorem scanChildren_eq_spec (exts : List String) (dp rp : String) :
    (l : List Entry) → scanChildren exts dp rp l =
      (collectChildren dp rp l).map (fun pr =>
        (pr.1, pr.2.filterMap (fun t =>
          if directImages exts t.1 t.2.2 = [] then none
          else some (t.2.1, sortNat (directImages exts t.1 t.2.2)))))
  | [] => rfl
  | e :: rest => by
    have h1 := scanEntry_eq_spec exts (joinPath dp (entryName e)) (joinPath rp (entryName e)) e
    have h2 := scanChildren_eq_spec exts dp rp rest
    show (e, scanEntry exts (joinPath dp (entryName e)) (joinPath rp (entryName e)) e)
        :: scanChildren exts dp rp rest
      = ((e, collectDirs (joinPath dp (entryName e)) (joinPath rp (entryName e)) e)
          :: collectChildren dp rp rest).map (fun pr =>
            (pr.1, pr.2.filterMap (fun t =>
              if directImages exts t.1 t.2.2 = [] then none
              else some (t.2.1, sortNat (directImages exts t.1 t.2.2)))))
    rw [h1, h2]
    rfl
end

theorem sortNat_eq_nil_iff (l : List String) : sortNat l = [] ↔ l = [] := by
  constructor
  · intro h
    have hperm := List.perm_insertionSort (NatLeOn (fun s : String => s)) l
    rw [show List.insertionSort (NatLeOn fun s : String => s) l = sortNat l from rfl, h] at hperm
    exact hperm.symm.eq_nil
  · intro h
    rw [h]
    rfl

theorem mem_scanSpec_value {exts : List String} {dp rp : String} {e : Entry}
    {k : String} {v : List String} (h : (k, v) ∈ scanSpec exts dp rp e) :
    ∃ t ∈ collectDirs dp rp e, t.2.1 = k ∧ directImages exts t.1 t.2.2 ≠ [] ∧
      v = sortNat (directImages exts t.1 t.2.2) := by
  unfold scanSpec at h
  rw [List.mem_filterMap] at h
  obtain ⟨t, ht, hft⟩ := h
  by_cases hne : directImages exts t.1 t.2.2 = []
  · rw [if_pos hne] at hft
    cases hft
  · rw [if_neg hne] at hft
    injection hft with h1
    injection h1 with h2 h3
    exact ⟨t, ht, h2, hne, h3.symm⟩

/-- C9: scanning an existing root directory succeeds and returns exactly one
entry per directory node that directly contains at least one file with an
allowed extension (compared lowercased): its key is the node's path relative
to the parent of the scan root (built from the root's own name down), its
value is the node's direct qualifying files in natural order, and a directory
without direct qualifying images contributes no key even when its descendants
contain images. -/
theorem scanDirectory_characterization (exts : List String) (rootParent name : String)
    (children : List Entry) :
    scanDirectory exts rootParent (Entry.dir name children)
      = some (scanSpec exts (joinPath rootParent name) name (Entry.dir name children)) ∧
    (∀ k : String,
      (∃ v, (k, v) ∈ scanSpec exts (joinPath rootParent name) name (Entry.dir name children)) ↔
      (∃ t ∈ collectDirs (joinPath rootParent name) name (Entry.dir name children),
        t.2.1 = k ∧ directImages exts t.1 t.2.2 ≠ [])) ∧
    (∀ k v,
      (k, v) ∈ scanSpec exts (joinPath rootParent name) name (Entry.dir name children) →
      ∃ t ∈ collectDirs (joinPath rootParent name) name (Entry.dir name children),
        t.2.1 = k ∧ directImages exts t.1 t.2.2 ≠ [] ∧
        v = sortNat (directImages exts t.1 t.2.2)) := by
  refine ⟨?_, ?_, ?_⟩
  · show some ((scanEntry exts (joinPath rootParent name) name (Entry.dir name children)).filter
      (fun kv => !kv.2.isEmpty)) = _
    rw [scanEntry_eq_spec]
    congr 1
    rw [List.filter_eq_self]
    intro kv hkv
    obtain ⟨k, v⟩ := kv
    obtain ⟨t, -, -, hne, hv⟩ := mem_scanSpec_value hkv
    have hvne : v ≠ [] := by
      rw [hv]
      intro hcontr
      exact hne ((sortNat_eq_nil_iff _).mp hcontr)
    cases v with
    | nil => exact absurd rfl hvne
    | cons a as => rfl
  · intro k
    constructor
    · intro ⟨v, hv⟩
      obtain ⟨t, ht, hk, hne, -⟩ := mem_scanSpec_value hv
      exact ⟨t, ht, hk, hne⟩
    · intro ⟨t, ht, hk, hne⟩
      refine ⟨sortNat (directImages exts t.1 t.2.2), ?_⟩
      unfold scanSpec
      rw [List.mem_filterMap]
      exact ⟨t, ht, by rw [if_neg hne, hk]⟩
  · intro k v hv
    exact mem_scanSpec_value hv

end ImageToPdf
